import Mathlib

/-!
Shallow embedding of the checkpoint registry of
`src/src/checkpoints/checkpoints.cpp` (class `cryptonote::checkpoints`).

The registry field `m_points` is a `std::map<uint64_t, crypto::hash>`: an
ordered map from block height to a 32-byte hash.  We embed it as an
association list `List (Nat × Hash)` whose keys are strictly ascending
(`SortedKeys`), which is the representation invariant of `std::map`.
Heights are `uint64_t` in the source; only comparisons are ever applied to
them (no arithmetic), so `Nat` models them exactly.  A `crypto::hash` is a
32-byte array; we embed it as its list of byte values.
-/

/-- Bytes of a `crypto::hash` (32 raw bytes in the source). -/
abbrev Hash := List Nat

/-- The `m_points` field: entries of the ordered map, as (height, hash) pairs. -/
abbrev Registry := List (Nat × Hash)

/-- Representation invariant of `std::map`: keys strictly ascending. -/
def SortedKeys (pts : Registry) : Prop :=
  pts.Pairwise (fun p q => p.1 < q.1)

instance : DecidablePred SortedKeys := fun pts =>
  inferInstanceAs (Decidable (pts.Pairwise _))

/-- Value of one hexadecimal digit, accepting both cases, as in epee's
hex parser used by `hex_to_pod`. -/
def hexDigit? (c : Char) : Option Nat :=
  if '0' ≤ c ∧ c ≤ '9' then some (c.toNat - '0'.toNat)
  else if 'a' ≤ c ∧ c ≤ 'f' then some (c.toNat - 'a'.toNat + 10)
  else if 'A' ≤ c ∧ c ≤ 'F' then some (c.toNat - 'A'.toNat + 10)
  else none

/-- Decode a hex character sequence into bytes, two digits per byte; fails on
an odd length or a non-hex character, as epee's hex parser does. -/
def hexBytes? : List Char → Option (List Nat)
  | [] => some []
  | [_] => none
  | c₁ :: c₂ :: rest =>
    match hexDigit? c₁, hexDigit? c₂, hexBytes? rest with
    | some hi, some lo, some bs => some ((16 * hi + lo) :: bs)
    | _, _, _ => none

/-- Embedding of `epee::string_tools::hex_to_pod(hash_str, h)` at type
`crypto::hash`: the string must decode to exactly 32 bytes. -/
def hex_to_pod (s : String) : Option Hash :=
  match hexBytes? s.data with
  | some bs => if bs.length = 32 then some bs else none
  | none => none

/-- Key lookup in the map: `m_points.find(height)` / `m_points.at(height)`,
returning the stored hash when the height is present. -/
def findHash : Registry → Nat → Option Hash
  | [], _ => none
  | (k, v) :: rest, h => if k = h then some v else findHash rest h

/-- Embedding of the assignment `m_points[height] = h` on the ordered map:
replace the entry when the key is present, otherwise insert at the ordered
position. -/
def mapInsert : Registry → Nat → Hash → Registry
  | [], height, hsh => [(height, hsh)]
  | (k, v) :: rest, height, hsh =>
    if height < k then (height, hsh) :: (k, v) :: rest
    else if height = k then (height, hsh) :: rest
    else (k, v) :: mapInsert rest height hsh

/-- Embedding of `checkpoints::add_checkpoint(height, hash_str)` (lines
74-87): decode the hash string (failure returns false, state unchanged);
if the height is present with a different hash, return false with the state
unchanged; otherwise store the hash at the height and return true. -/
def add_checkpoint (pts : Registry) (height : Nat) (hash_str : String) :
    Bool × Registry :=
  match hex_to_pod hash_str with
  | none => (false, pts)
  | some h =>
    if (findHash pts height).isSome then
      if findHash pts height = some h then (true, mapInsert pts height h)
      else (false, pts)
    else (true, mapInsert pts height h)

/-- Last entry of the ordered map, `(--m_points.end())` when the map is
non-empty. -/
def lastEntry : Registry → Option (Nat × Hash)
  | [] => none
  | [p] => some p
  | _ :: q :: rest => lastEntry (q :: rest)

/-- Embedding of `checkpoints::is_in_checkpoint_zone(height)` (lines 89-92):
`!m_points.empty() && height <= (--m_points.end())->first`. -/
def is_in_checkpoint_zone (pts : Registry) (height : Nat) : Bool :=
  match lastEntry pts with
  | none => false
  | some p => decide (height ≤ p.1)

/-- Embedding of `checkpoints::check_block(height, h, is_a_checkpoint)`
(lines 94-111), returning `(passed, is_a_checkpoint)`. -/
def check_block (pts : Registry) (height : Nat) (h : Hash) : Bool × Bool :=
  match findHash pts height with
  | none => (true, false)
  | some stored => (decide (stored = h), true)

/-- The entry just before `m_points.upper_bound(cur)` in the ordered map:
the last entry whose key is at most `cur`; `none` when
`upper_bound(cur) == begin()`. -/
def lastLE : Registry → Nat → Option (Nat × Hash)
  | [], _ => none
  | p :: rest, cur =>
    if p.1 ≤ cur then
      match lastLE rest cur with
      | none => some p
      | some q => some q
    else lastLE rest cur

/-- Embedding of `checkpoints::is_alternative_block_allowed(blockchain_height,
block_height)` (lines 120-133): reject candidate height 0; allow when
`upper_bound(blockchain_height)` is `begin()`; otherwise compare the
candidate height against the key of the entry just before it. -/
def is_alternative_block_allowed (pts : Registry)
    (blockchain_height block_height : Nat) : Bool :=
  if block_height = 0 then false
  else
    match lastLE pts blockchain_height with
    | none => true
    | some p => decide (p.1 < block_height)

/-- Embedding of `checkpoints::get_max_height()` (lines 135-142):
`std::max_element` over the map compared on keys, then a dereference.  On an
empty map `max_element` returns `end()` and the dereference is undefined; the
`none` branch marks that case. -/
def get_max_height : Registry → Option Nat
  | [] => none
  | (k, _) :: rest =>
    match get_max_height rest with
    | none => some k
    | some m => some (max k m)

/-- Embedding of `checkpoints::check_for_conflicts(other)` (lines 149-159):
for every point of `other` present in this registry, the hashes must agree;
the first disagreement returns false. -/
def check_for_conflicts (pts other : Registry) : Bool :=
  other.all fun pt =>
    match findHash pts pt.1 with
    | none => true
    | some stored => decide (pt.2 = stored)

/-- One record of the checkpoint file (`t_hashline`): a height and a hash
string. -/
abbrev HashLine := Nat × String

/-- The record loop of `load_checkpoints_from_json` (lines 291-303): skip a
record whose height is at most the snapshot maximum, otherwise submit it.
Modelled from the spec: the `ADD_CHECKPOINT` macro applied to the record
lives in `checkpoints.h`, which is not part of the sources; per the spec,
the record is submitted to `add_checkpoint` and a per-record failure is
logged and the merge continues with the next record, so only the resulting
registry component is kept. -/
def mergeRecords (prev_max_height : Nat) (pts : Registry) :
    List HashLine → Registry
  | [] => pts
  | (height, hash_str) :: rest =>
    if height ≤ prev_max_height then mergeRecords prev_max_height pts rest
    else
      mergeRecords prev_max_height (add_checkpoint pts height hash_str).2 rest

/-- Embedding of `checkpoints::load_checkpoints_from_json(path)` (lines
272-306).  The file system and the json parser are external collaborators:
`file_exists` stands for `boost::filesystem::exists`, `parse_ok` for
`load_t_from_json_file`, and `hashlines` for the parsed records.  A missing
file returns true without touching the registry; otherwise the snapshot
maximum is taken (undefined on an empty registry, the `none` branch), a
parse failure returns false, and otherwise the records are merged. -/
def load_checkpoints_from_json (pts : Registry) (file_exists parse_ok : Bool)
    (hashlines : List HashLine) : Option (Bool × Registry) :=
  if !file_exists then some (true, pts)
  else
    match get_max_height pts with
    | none => none
    | some prev_max_height =>
      if !parse_ok then some (false, pts)
      else some (true, mergeRecords prev_max_height pts hashlines)

/-- Embedding of `checkpoints::load_checkpoints_from_dns(nettype)` (lines
308-353): the body returns false immediately; everything after that
statement is unreachable. -/
def load_checkpoints_from_dns (pts : Registry) : Bool × Registry :=
  (false, pts)

/-- Embedding of `checkpoints::load_new_checkpoints(path, nettype, dns)`
(lines 355-366): merge from the file, then, when `dns` is set, also merge
from dns and conjoin the results. -/
def load_new_checkpoints (pts : Registry) (file_exists parse_ok : Bool)
    (hashlines : List HashLine) (dns : Bool) : Option (Bool × Registry) :=
  match load_checkpoints_from_json pts file_exists parse_ok hashlines with
  | none => none
  | some (result, pts₁) =>
    if dns then
      let r := load_checkpoints_from_dns pts₁
      some (result && r.1, r.2)
    else some (result, pts₁)

/-- A 64-character hex string, `"aa...a"`, for concrete instances. -/
def strA : String := String.mk (List.replicate 64 'a')

/-- A 64-character hex string, `"bb...b"`, for concrete instances. -/
def strB : String := String.mk (List.replicate 64 'b')

/-- A 64-character hex string, `"cc...c"`, for concrete instances. -/
def strC : String := String.mk (List.replicate 64 'c')

/-- A 64-character hex string, `"dd...d"`, for concrete instances. -/
def strD : String := String.mk (List.replicate 64 'd')

/-- A string that is not a valid hash encoding, for concrete instances. -/
def strBad : String := "not-a-hash"

/-- The 32-byte value `strA` decodes to (byte 0xaa repeated). -/
def hashA : Hash := List.replicate 32 170

/-- The 32-byte value `strB` decodes to (byte 0xbb repeated). -/
def hashB : Hash := List.replicate 32 187

/-- The 32-byte value `strC` decodes to (byte 0xcc repeated). -/
def hashC : Hash := List.replicate 32 204

/-- The 32-byte value `strD` decodes to (byte 0xdd repeated). -/
def hashD : Hash := List.replicate 32 221

/-! ### Lemmas about lookup, insertion and the ordered-map invariant -/

theorem findHash_mem {pts : Registry} {k : Nat} {v : Hash}
    (h : findHash pts k = some v) : (k, v) ∈ pts := by
  induction pts with
  | nil => simp [findHash] at h
  | cons p rest ih =>
    obtain ⟨k₀, v₀⟩ := p
    simp only [findHash] at h
    by_cases hk : k₀ = k
    · subst hk
      rw [if_pos rfl] at h
      obtain rfl : v₀ = v := Option.some.inj h
      exact List.mem_cons_self _ _
    · rw [if_neg hk] at h
      exact List.mem_cons_of_mem _ (ih h)

theorem mem_findHash {pts : Registry} {k : Nat} {v : Hash}
    (hs : SortedKeys pts) (hm : (k, v) ∈ pts) : findHash pts k = some v := by
  induction pts with
  | nil => cases hm
  | cons p rest ih =>
    obtain ⟨k₀, v₀⟩ := p
    obtain ⟨hlt, hs'⟩ := List.pairwise_cons.mp hs
    rcases List.mem_cons.mp hm with heq | hmem
    · cases heq
      simp [findHash]
    · have hk : k₀ ≠ k := Nat.ne_of_lt (hlt _ hmem)
      simp only [findHash, if_neg hk]
      exact ih hs' hmem

theorem findHash_eq_none_iff {pts : Registry} {k : Nat} :
    findHash pts k = none ↔ ∀ v : Hash, (k, v) ∉ pts := by
  induction pts with
  | nil => simp [findHash]
  | cons p rest ih =>
    obtain ⟨k₀, v₀⟩ := p
    simp only [findHash, List.mem_cons]
    by_cases hk : k₀ = k
    · subst hk
      rw [if_pos rfl]
      constructor
      · intro h; cases h
      · intro h; exact ((h v₀) (Or.inl rfl)).elim
    · rw [if_neg hk, ih]
      constructor
      · intro h v
        rintro (heq | hmem)
        · cases heq; exact hk rfl
        · exact h v hmem
      · intro h v hm
        exact h v (Or.inr hm)

theorem findHash_mapInsert_self (pts : Registry) (k : Nat) (v : Hash) :
    findHash (mapInsert pts k v) k = some v := by
  induction pts with
  | nil => simp [mapInsert, findHash]
  | cons p rest ih =>
    obtain ⟨k₀, v₀⟩ := p
    simp only [mapInsert]
    by_cases hlt : k < k₀
    · rw [if_pos hlt]
      simp [findHash]
    · rw [if_neg hlt]
      by_cases heq : k = k₀
      · rw [if_pos heq]
        simp [findHash]
      · rw [if_neg heq]
        have hk : k₀ ≠ k := fun h => heq h.symm
        simp only [findHash, if_neg hk]
        exact ih

theorem findHash_mapInsert_ne {pts : Registry} {k k' : Nat} (v : Hash)
    (hne : k' ≠ k) : findHash (mapInsert pts k v) k' = findHash pts k' := by
  have hkk : ¬ k = k' := fun h => hne h.symm
  induction pts with
  | nil => simp [mapInsert, findHash, hkk]
  | cons p rest ih =>
    obtain ⟨k₀, v₀⟩ := p
    simp only [mapInsert]
    by_cases hlt : k < k₀
    · rw [if_pos hlt]
      simp only [findHash, if_neg hkk]
    · rw [if_neg hlt]
      by_cases heq : k = k₀
      · subst heq
        rw [if_pos rfl]
        simp only [findHash, if_neg hkk]
      · rw [if_neg heq]
        simp only [findHash]
        by_cases h₀ : k₀ = k'
        · rw [if_pos h₀, if_pos h₀]
        · rw [if_neg h₀, if_neg h₀]
          exact ih

theorem mem_mapInsert {pts : Registry} {k : Nat} {v : Hash} {q : Nat × Hash}
    (hm : q ∈ mapInsert pts k v) : q ∈ pts ∨ q = (k, v) := by
  induction pts with
  | nil =>
    simp only [mapInsert] at hm
    rcases List.mem_singleton.mp hm with rfl
    exact Or.inr rfl
  | cons p rest ih =>
    obtain ⟨k₀, v₀⟩ := p
    simp only [mapInsert] at hm
    by_cases hlt : k < k₀
    · rw [if_pos hlt] at hm
      rcases List.mem_cons.mp hm with rfl | hm'
      · exact Or.inr rfl
      · exact Or.inl hm'
    · rw [if_neg hlt] at hm
      by_cases heq : k = k₀
      · rw [if_pos heq] at hm
        rcases List.mem_cons.mp hm with rfl | hm'
        · exact Or.inr rfl
        · exact Or.inl (List.mem_cons_of_mem _ hm')
      · rw [if_neg heq] at hm
        rcases List.mem_cons.mp hm with rfl | hm'
        · exact Or.inl (List.mem_cons_self _ _)
        · rcases ih hm' with h | h
          · exact Or.inl (List.mem_cons_of_mem _ h)
          · exact Or.inr h

theorem sortedKeys_mapInsert {pts : Registry} (k : Nat) (v : Hash)
    (hs : SortedKeys pts) : SortedKeys (mapInsert pts k v) := by
  induction pts with
  | nil => simp [mapInsert, SortedKeys]
  | cons p rest ih =>
    obtain ⟨k₀, v₀⟩ := p
    obtain ⟨hlt, hs'⟩ := List.pairwise_cons.mp hs
    simp only [mapInsert]
    by_cases h₁ : k < k₀
    · rw [if_pos h₁]
      refine List.pairwise_cons.mpr ⟨?_, hs⟩
      intro q hq
      rcases List.mem_cons.mp hq with rfl | hq'
      · exact h₁
      · exact Nat.lt_trans h₁ (hlt _ hq')
    · rw [if_neg h₁]
      by_cases h₂ : k = k₀
      · subst h₂
        rw [if_pos rfl]
        exact List.pairwise_cons.mpr ⟨hlt, hs'⟩
      · rw [if_neg h₂]
        refine List.pairwise_cons.mpr ⟨?_, ih hs'⟩
        intro q hq
        rcases mem_mapInsert hq with hq' | rfl
        · exact hlt _ hq'
        · exact Nat.lt_of_le_of_ne (Nat.le_of_not_lt h₁) (fun h => h₂ h.symm)

theorem mapInsert_self {pts : Registry} {k : Nat} {v : Hash}
    (hs : SortedKeys pts) (hf : findHash pts k = some v) :
    mapInsert pts k v = pts := by
  induction pts with
  | nil => simp [findHash] at hf
  | cons p rest ih =>
    obtain ⟨k₀, v₀⟩ := p
    obtain ⟨hlt, hs'⟩ := List.pairwise_cons.mp hs
    simp only [findHash] at hf
    by_cases heq : k₀ = k
    · subst heq
      rw [if_pos rfl] at hf
      obtain rfl : v₀ = v := Option.some.inj hf
      simp [mapInsert]
    · rw [if_neg heq] at hf
      have hk₀ : k₀ < k := hlt _ (findHash_mem hf)
      simp only [mapInsert, if_neg (Nat.lt_asymm hk₀),
        if_neg (fun h : k = k₀ => heq h.symm)]
      exact congrArg (List.cons _) (ih hs' hf)

theorem lastLE_eq_none_iff {pts : Registry} {cur : Nat} :
    lastLE pts cur = none ↔ ∀ p ∈ pts, cur < p.1 := by
  induction pts with
  | nil => simp [lastLE]
  | cons p rest ih =>
    simp only [lastLE, List.forall_mem_cons]
    by_cases hle : p.1 ≤ cur
    · rw [if_pos hle]
      cases hrec : lastLE rest cur with
      | none =>
        simp only [hrec]
        constructor
        · intro h; cases h
        · intro h; exact absurd h.1 (by omega)
      | some q =>
        simp only [hrec]
        constructor
        · intro h; cases h
        · intro h; exact absurd h.1 (by omega)
    · rw [if_neg hle, ih]
      constructor
      · intro h; exact ⟨by omega, h⟩
      · intro h; exact h.2

theorem lastLE_mem {pts : Registry} {cur : Nat} {p : Nat × Hash}
    (h : lastLE pts cur = some p) : p ∈ pts ∧ p.1 ≤ cur := by
  induction pts with
  | nil => cases h
  | cons a rest ih =>
    simp only [lastLE] at h
    by_cases hle : a.1 ≤ cur
    · rw [if_pos hle] at h
      cases hrec : lastLE rest cur with
      | none =>
        simp only [hrec] at h
        obtain rfl := Option.some.inj h
        exact ⟨List.mem_cons_self _ _, hle⟩
      | some r =>
        simp only [hrec] at h
        obtain rfl := Option.some.inj h
        obtain ⟨hm, hc⟩ := ih hrec
        exact ⟨List.mem_cons_of_mem _ hm, hc⟩
    · rw [if_neg hle] at h
      obtain ⟨hm, hc⟩ := ih h
      exact ⟨List.mem_cons_of_mem _ hm, hc⟩

theorem lastLE_greatest {pts : Registry} {cur : Nat} {p : Nat × Hash}
    (hs : SortedKeys pts) (h : lastLE pts cur = some p) :
    ∀ q ∈ pts, q.1 ≤ cur → q.1 ≤ p.1 := by
  induction pts with
  | nil => cases h
  | cons a rest ih =>
    obtain ⟨hlt, hs'⟩ := List.pairwise_cons.mp hs
    simp only [lastLE] at h
    by_cases hle : a.1 ≤ cur
    · rw [if_pos hle] at h
      cases hrec : lastLE rest cur with
      | none =>
        simp only [hrec] at h
        obtain rfl := Option.some.inj h
        intro q hq hqc
        rcases List.mem_cons.mp hq with rfl | hq'
        · exact Nat.le_refl _
        · exact absurd hqc (by have := lastLE_eq_none_iff.mp hrec q hq'; omega)
      | some r =>
        simp only [hrec] at h
        obtain rfl := Option.some.inj h
        intro q hq hqc
        rcases List.mem_cons.mp hq with rfl | hq'
        · exact Nat.le_of_lt (hlt _ (lastLE_mem hrec).1)
        · exact ih hs' hrec q hq' hqc
    · rw [if_neg hle] at h
      intro q hq hqc
      rcases List.mem_cons.mp hq with rfl | hq'
      · exact absurd hqc hle
      · exact ih hs' h q hq' hqc

theorem lastEntry_mem {pts : Registry} {p : Nat × Hash}
    (h : lastEntry pts = some p) : p ∈ pts := by
  induction pts with
  | nil => cases h
  | cons a rest ih =>
    cases rest with
    | nil =>
      simp only [lastEntry] at h
      obtain rfl := Option.some.inj h
      exact List.mem_cons_self _ _
    | cons b rest₁ =>
      simp only [lastEntry] at h
      exact List.mem_cons_of_mem _ (ih h)

theorem get_max_height_isSome {pts : Registry} (h : pts ≠ []) :
    (get_max_height pts).isSome = true := by
  cases pts with
  | nil => exact absurd rfl h
  | cons p rest =>
    obtain ⟨k, v⟩ := p
    cases hrec : get_max_height rest <;> simp [get_max_height, hrec]

theorem get_max_height_eq_lastEntry {pts : Registry} (hs : SortedKeys pts) :
    get_max_height pts = (lastEntry pts).map Prod.fst := by
  induction pts with
  | nil => rfl
  | cons a rest ih =>
    obtain ⟨hlt, hs'⟩ := List.pairwise_cons.mp hs
    cases rest with
    | nil =>
      obtain ⟨k, v⟩ := a
      rfl
    | cons b rest₁ =>
      obtain ⟨k, v⟩ := a
      cases hm : get_max_height (b :: rest₁) with
      | none =>
        have hsome := @get_max_height_isSome (b :: rest₁) (by simp)
        rw [hm] at hsome
        cases hsome
      | some m =>
        have hstep : get_max_height ((k, v) :: b :: rest₁) =
            match get_max_height (b :: rest₁) with
            | none => some k
            | some m => some (max k m) := rfl
        have hlast : lastEntry ((k, v) :: b :: rest₁) = lastEntry (b :: rest₁) :=
          rfl
        have hm₁ : (lastEntry (b :: rest₁)).map Prod.fst = some m :=
          (ih hs').symm.trans hm
        obtain ⟨q, hq, hqm⟩ := Option.map_eq_some'.mp hm₁
        have hkm : k < m := hqm ▸ hlt _ (lastEntry_mem hq)
        have hmax : max k m = m := by omega
        rw [hstep, hm, hlast, hm₁]
        exact congrArg some hmax

theorem add_checkpoint_of_decode_fail {pts : Registry} {height : Nat}
    {s : String} (hx : hex_to_pod s = none) :
    add_checkpoint pts height s = (false, pts) := by
  unfold add_checkpoint
  rw [hx]

theorem add_checkpoint_of_decode_ok {pts : Registry} {height : Nat}
    {s : String} {h : Hash} (hx : hex_to_pod s = some h) :
    add_checkpoint pts height s =
      if (findHash pts height).isSome = true then
        if findHash pts height = some h then (true, mapInsert pts height h)
        else (false, pts)
      else (true, mapInsert pts height h) := by
  unfold add_checkpoint
  rw [hx]

theorem add_checkpoint_snd_of_fst_false {pts : Registry} {height : Nat}
    {s : String} (h : (add_checkpoint pts height s).1 = false) :
    (add_checkpoint pts height s).2 = pts := by
  cases hx : hex_to_pod s with
  | none => rw [add_checkpoint_of_decode_fail hx]
  | some hh =>
    rw [add_checkpoint_of_decode_ok hx] at h ⊢
    by_cases h₁ : (findHash pts height).isSome = true
    · rw [if_pos h₁] at h ⊢
      by_cases h₂ : findHash pts height = some hh
      · rw [if_pos h₂] at h
        exact Bool.noConfusion h
      · rw [if_neg h₂]
    · rw [if_neg h₁] at h
      exact Bool.noConfusion h

theorem findHash_add_checkpoint_ne {pts : Registry} {height h' : Nat}
    {s : String} (hne : h' ≠ height) :
    findHash (add_checkpoint pts height s).2 h' = findHash pts h' := by
  simp only [add_checkpoint]
  cases hx : hex_to_pod s with
  | none => rfl
  | some hh =>
    simp only
    split_ifs with h₁ h₂
    · exact findHash_mapInsert_ne _ hne
    · rfl
    · exact findHash_mapInsert_ne _ hne

theorem mergeRecords_eq_filter_foldl (pm : Nat) (lines : List HashLine) :
    ∀ pts : Registry,
    mergeRecords pm pts lines =
      (lines.filter fun r => decide (pm < r.1)).foldl
        (fun acc r => (add_checkpoint acc r.1 r.2).2) pts := by
  induction lines with
  | nil => intro pts; rfl
  | cons r rest ih =>
    intro pts
    obtain ⟨height, s⟩ := r
    simp only [mergeRecords, List.filter_cons]
    by_cases hle : height ≤ pm
    · rw [if_pos hle]
      have hd : (decide (pm < (height, s).1) = true) = False := by
        simp; omega
      rw [if_neg (by rw [hd]; exact id)]
      exact ih pts
    · rw [if_neg hle]
      have hd : decide (pm < (height, s).1) = true := by simp; omega
      rw [if_pos hd, List.foldl_cons]
      exact ih _

theorem findHash_mergeRecords_le (pm : Nat) (lines : List HashLine) :
    ∀ (pts : Registry) (h : Nat), h ≤ pm →
    findHash (mergeRecords pm pts lines) h = findHash pts h := by
  induction lines with
  | nil => intro pts h _; rfl
  | cons r rest ih =>
    intro pts h hle
    obtain ⟨height, s⟩ := r
    simp only [mergeRecords]
    by_cases hh : height ≤ pm
    · rw [if_pos hh]
      exact ih pts h hle
    · rw [if_neg hh]
      rw [ih _ h hle]
      exact findHash_add_checkpoint_ne (by omega)

theorem load_json_step {pts : Registry} {m : Nat}
    (hm : get_max_height pts = some m) (lines : List HashLine) :
    load_checkpoints_from_json pts true true lines =
      some (true, mergeRecords m pts lines) := by
  unfold load_checkpoints_from_json
  rw [hm]
  rfl

/-! ### Claim theorems -/

/-- C1: `is_alternative_block_allowed` follows the spec's reorg-gate
algorithm on every registry: a zero candidate height is always rejected;
when no checkpoint height is at or below the current chain height the
branch is allowed; otherwise the branch is allowed iff the candidate height
strictly exceeds the greatest checkpoint height at or below the current
chain height.  With checkpoints at heights 100 and 200: (150, 250) is
allowed, (50, 10) is allowed, (150, 90) is rejected. -/
theorem C1_reorg_gate :
    (∀ pts : Registry, SortedKeys pts → ∀ cur cand : Nat,
      (is_alternative_block_allowed pts cur cand = true ↔
        cand ≠ 0 ∧ ((∀ p ∈ pts, cur < p.1) ∨
          ∃ p ∈ pts, p.1 ≤ cur ∧ p.1 < cand ∧
            ∀ q ∈ pts, q.1 ≤ cur → q.1 ≤ p.1)))
    ∧ is_alternative_block_allowed [(100, hashA), (200, hashB)] 150 250 = true
    ∧ is_alternative_block_allowed [(100, hashA), (200, hashB)] 50 10 = true
    ∧ is_alternative_block_allowed [(100, hashA), (200, hashB)] 150 90
        = false := by
  refine ⟨?_, by decide, by decide, by decide⟩
  intro pts hs cur cand
  unfold is_alternative_block_allowed
  by_cases hz : cand = 0
  · rw [if_pos hz]
    simp [hz]
  · rw [if_neg hz]
    cases hl : lastLE pts cur with
    | none =>
      constructor
      · intro _
        exact ⟨hz, Or.inl (lastLE_eq_none_iff.mp hl)⟩
      · intro _
        rfl
    | some p =>
      obtain ⟨hm, hc⟩ := lastLE_mem hl
      have hg := lastLE_greatest hs hl
      simp only [decide_eq_true_eq]
      constructor
      · intro hlt
        exact ⟨hz, Or.inr ⟨p, hm, hc, hlt, hg⟩⟩
      · rintro ⟨-, hcase | ⟨q, hqm, hqc, hqlt, hqg⟩⟩
        · exact absurd hc (by have := hcase p hm; omega)
        · have h₁ : q.1 ≤ p.1 := hg q hqm hqc
          have h₂ : p.1 ≤ q.1 := hqg p hm hc
          omega

/-- Witness for C1: the characterization instantiated at the registry with
checkpoints at heights 100 and 200. -/
theorem C1_reorg_gate_witness :
    is_alternative_block_allowed [(100, hashA), (200, hashB)] 150 250 = true ↔
      (250 ≠ 0 ∧
        ((∀ p ∈ ([(100, hashA), (200, hashB)] : Registry), 150 < p.1) ∨
          ∃ p ∈ ([(100, hashA), (200, hashB)] : Registry),
            p.1 ≤ 150 ∧ p.1 < 250 ∧
              ∀ q ∈ ([(100, hashA), (200, hashB)] : Registry),
                q.1 ≤ 150 → q.1 ≤ p.1)) :=
  C1_reorg_gate.1 [(100, hashA), (200, hashB)] (by decide) 150 250

/-- C2: `add_checkpoint` is atomic on failure: a hash string that fails to
decode returns failure with the registry unchanged; a height already
present with a different stored hash returns failure with the registry
unchanged; otherwise the call succeeds and the registry afterwards maps the
height to the decoded hash. -/
theorem C2_add_point_atomic :
    ∀ (pts : Registry) (height : Nat) (s : String),
      (hex_to_pod s = none → add_checkpoint pts height s = (false, pts))
      ∧ (∀ h stored : Hash, hex_to_pod s = some h →
          findHash pts height = some stored → stored ≠ h →
          add_checkpoint pts height s = (false, pts))
      ∧ (∀ h : Hash, hex_to_pod s = some h →
          (findHash pts height = none ∨ findHash pts height = some h) →
          (add_checkpoint pts height s).1 = true ∧
            findHash (add_checkpoint pts height s).2 height = some h) := by
  intro pts height s
  refine ⟨?_, ?_, ?_⟩
  · intro hx
    exact add_checkpoint_of_decode_fail hx
  · intro h stored hx hf hne
    rw [add_checkpoint_of_decode_ok hx, if_pos (by rw [hf]; rfl),
      if_neg (by rw [hf]; exact fun hc => hne (Option.some.inj hc))]
  · intro h hx hcase
    rw [add_checkpoint_of_decode_ok hx]
    rcases hcase with hn | hsome
    · rw [if_neg (by simp [hn])]
      exact ⟨rfl, findHash_mapInsert_self pts height h⟩
    · rw [if_pos (by rw [hsome]; rfl), if_pos hsome]
      exact ⟨rfl, findHash_mapInsert_self pts height h⟩

/-- Witness for C2: a conflicting insertion at an occupied height fails and
leaves the registry unchanged. -/
theorem C2_add_point_atomic_witness :
    add_checkpoint [(0, hashA)] 0 strB = (false, [(0, hashA)]) :=
  (C2_add_point_atomic [(0, hashA)] 0 strB).2.1 hashB hashA
    (by decide) (by decide) (by decide)

/-- C3: `check_block` returns (true, false) at an unregistered height,
(true, true) at a registered height whose stored hash matches, and
(false, true) at a registered height whose stored hash differs. -/
theorem C3_check_block_values :
    ∀ pts : Registry, SortedKeys pts → ∀ (height : Nat) (h : Hash),
      ((∀ v : Hash, (height, v) ∉ pts) →
        check_block pts height h = (true, false))
      ∧ ((height, h) ∈ pts → check_block pts height h = (true, true))
      ∧ (∀ stored : Hash, (height, stored) ∈ pts → stored ≠ h →
          check_block pts height h = (false, true)) := by
  intro pts hs height h
  refine ⟨?_, ?_, ?_⟩
  · intro habs
    unfold check_block
    rw [findHash_eq_none_iff.mpr habs]
  · intro hm
    unfold check_block
    rw [mem_findHash hs hm]
    simp
  · intro stored hm hne
    unfold check_block
    rw [mem_findHash hs hm]
    simp [hne]

/-- Witness for C3: a mismatching hash at a registered height is the
checkpoint-violation signal (false, true). -/
theorem C3_check_block_values_witness :
    check_block [(100, hashA)] 100 hashB = (false, true) :=
  (C3_check_block_values [(100, hashA)] (by decide) 100 hashB).2.2 hashA
    (by decide) (by decide)

/-- C4: `load_checkpoints_from_json` snapshots the registry maximum once,
before any record; the merge equals submitting exactly the records above
that snapshot to `add_checkpoint`, in their original order, and a record at
or below the snapshot leaves its height exactly as it was before the merge.
With registry maximum 100 and file heights 50, 150, 200: height 50 stays
absent, heights 150 and 200 are present.
The `ADD_CHECKPOINT` macro used by the loop is modelled from the spec (its
definition is in `checkpoints.h`, outside the sources). -/
theorem C4_merge_snapshot :
    (∀ (pts : Registry) (hashlines : List HashLine) (m : Nat),
      get_max_height pts = some m →
      load_checkpoints_from_json pts true true hashlines =
        some (true, (hashlines.filter fun r => decide (m < r.1)).foldl
          (fun acc r => (add_checkpoint acc r.1 r.2).2) pts)
      ∧ ∀ r ∈ hashlines, r.1 ≤ m →
          findHash (mergeRecords m pts hashlines) r.1 = findHash pts r.1)
    ∧ load_checkpoints_from_json [(100, hashA)] true true
        [(50, strB), (150, strC), (200, strD)] =
      some (true, [(100, hashA), (150, hashC), (200, hashD)])
    ∧ findHash (mergeRecords 100 [(100, hashA)]
        [(50, strB), (150, strC), (200, strD)]) 50 = none
    ∧ (findHash (mergeRecords 100 [(100, hashA)]
        [(50, strB), (150, strC), (200, strD)]) 150).isSome = true
    ∧ (findHash (mergeRecords 100 [(100, hashA)]
        [(50, strB), (150, strC), (200, strD)]) 200).isSome = true := by
  refine ⟨?_, by decide, by decide, by decide, by decide⟩
  intro pts lines m hm
  constructor
  · rw [load_json_step hm lines, mergeRecords_eq_filter_foldl]
  · intro r hr hle
    exact findHash_mergeRecords_le m lines pts r.1 hle

/-- Witness for C4: the merge over the registry with maximum 100 equals the
fold of `add_checkpoint` over the records above 100, in order. -/
theorem C4_merge_snapshot_witness :
    load_checkpoints_from_json [(100, hashA)] true true
        [(50, strB), (150, strC), (200, strD)] =
      some (true, (([(50, strB), (150, strC), (200, strD)] :
            List HashLine).filter fun r => decide (100 < r.1)).foldl
        (fun acc r => (add_checkpoint acc r.1 r.2).2) [(100, hashA)]) :=
  (C4_merge_snapshot.1 [(100, hashA)] [(50, strB), (150, strC), (200, strD)]
    100 (by decide)).1

/-- C5: a per-record failure of `add_checkpoint` during the file merge does
not abort it: the failed record leaves the registry unchanged and the merge
continues with the remaining records, and the overall return value of the
merge is success regardless of per-record failures.
The `ADD_CHECKPOINT` macro used by the loop is modelled from the spec (its
definition is in `checkpoints.h`, outside the sources). -/
theorem C5_merge_skip_and_continue :
    (∀ (pm : Nat) (pts : Registry) (height : Nat) (s : String)
        (rest : List HashLine), pm < height →
      (add_checkpoint pts height s).1 = false →
      mergeRecords pm pts ((height, s) :: rest) = mergeRecords pm pts rest)
    ∧ (∀ (pts : Registry) (hashlines : List HashLine) (m : Nat),
        get_max_height pts = some m →
        ∃ reg : Registry,
          load_checkpoints_from_json pts true true hashlines
            = some (true, reg)) := by
  constructor
  · intro pm pts height s rest hlt hfail
    simp only [mergeRecords]
    rw [if_neg (by omega : ¬ height ≤ pm),
      add_checkpoint_snd_of_fst_false hfail]
  · intro pts lines m hm
    exact ⟨mergeRecords m pts lines, load_json_step hm lines⟩

/-- Witness for C5: a record whose hash string fails to decode is skipped
and the merge continues with the next record. -/
theorem C5_merge_skip_and_continue_witness :
    mergeRecords 100 [(100, hashA)] [(150, strBad), (200, strD)] =
      mergeRecords 100 [(100, hashA)] [(200, strD)] :=
  C5_merge_skip_and_continue.1 100 [(100, hashA)] 150 strBad [(200, strD)]
    (by decide) (by decide)

/-- C6: `is_in_checkpoint_zone` is false on the empty registry, and on a
non-empty registry it is true exactly when the height is at most the
maximum registered checkpoint height. -/
theorem C6_checkpoint_zone :
    (∀ h : Nat, is_in_checkpoint_zone [] h = false)
    ∧ (∀ pts : Registry, SortedKeys pts → ∀ m : Nat,
        get_max_height pts = some m → ∀ h : Nat,
        is_in_checkpoint_zone pts h = decide (h ≤ m)) := by
  constructor
  · intro h
    rfl
  · intro pts hs m hm h
    unfold is_in_checkpoint_zone
    have hl : (lastEntry pts).map Prod.fst = some m :=
      (get_max_height_eq_lastEntry hs).symm.trans hm
    obtain ⟨q, hq, hqm⟩ := Option.map_eq_some'.mp hl
    rw [hq]
    show decide (h ≤ q.1) = decide (h ≤ m)
    rw [hqm]

/-- Witness for C6 at the registry with checkpoints 100 and 200. -/
theorem C6_checkpoint_zone_witness :
    is_in_checkpoint_zone [(100, hashA), (200, hashB)] 150
      = decide (150 ≤ 200) :=
  C6_checkpoint_zone.2 [(100, hashA), (200, hashB)] (by decide) 200
    (by decide) 150

/-- C7: `check_for_conflicts` returns false exactly when some height present
in both registries carries different hashes in the two, and true
otherwise. -/
theorem C7_check_for_conflicts_iff :
    ∀ pts other : Registry, SortedKeys pts →
      (check_for_conflicts pts other = false ↔
        ∃ (k : Nat) (v w : Hash),
          (k, v) ∈ pts ∧ (k, w) ∈ other ∧ v ≠ w) := by
  intro pts other hs
  unfold check_for_conflicts
  rw [List.all_eq_false]
  constructor
  · rintro ⟨pt, hpt, hbad⟩
    cases hf : findHash pts pt.1 with
    | none =>
      rw [hf] at hbad
      exact absurd rfl hbad
    | some stored =>
      rw [hf] at hbad
      have hne : ¬ pt.2 = stored := by simpa using hbad
      exact ⟨pt.1, stored, pt.2, findHash_mem hf, hpt,
        fun he => hne he.symm⟩
  · rintro ⟨k, v, w, hv, hw, hne⟩
    refine ⟨(k, w), hw, ?_⟩
    have hf : findHash pts (k, w).1 = some v := mem_findHash hs hv
    rw [hf]
    show ¬ decide (w = v) = true
    simp only [decide_eq_true_eq]
    exact fun he => hne he.symm

/-- Witness for C7: two registries sharing height 100 with different hashes
conflict. -/
theorem C7_check_for_conflicts_iff_witness :
    check_for_conflicts [(100, hashA)] [(100, hashB)] = false ↔
      ∃ (k : Nat) (v w : Hash),
        (k, v) ∈ ([(100, hashA)] : Registry) ∧
          (k, w) ∈ ([(100, hashB)] : Registry) ∧ v ≠ w :=
  C7_check_for_conflicts_iff [(100, hashA)] [(100, hashB)] (by decide)

/-- C8: `load_new_checkpoints` always performs the file merge; the dns merge
runs only when the flag is set; the returned flag is the file result when
the flag is off and the conjunction of both results when it is on. -/
theorem C8_load_new_checkpoints :
    ∀ (pts : Registry) (fe po : Bool) (lines : List HashLine)
      (b : Bool) (reg : Registry),
      load_checkpoints_from_json pts fe po lines = some (b, reg) →
      load_new_checkpoints pts fe po lines false = some (b, reg)
      ∧ load_new_checkpoints pts fe po lines true =
          some (b && (load_checkpoints_from_dns reg).1,
            (load_checkpoints_from_dns reg).2) := by
  intro pts fe po lines b reg hj
  unfold load_new_checkpoints
  rw [hj]
  exact ⟨rfl, rfl⟩

/-- Witness for C8: with the dns flag on, the result is the conjunction of
the file-merge result and the dns-merge result. -/
theorem C8_load_new_checkpoints_witness :
    load_new_checkpoints [(100, hashA)] true true [(150, strC)] true =
      some (true && (load_checkpoints_from_dns
          [(100, hashA), (150, hashC)]).1,
        (load_checkpoints_from_dns [(100, hashA), (150, hashC)]).2) :=
  (C8_load_new_checkpoints [(100, hashA)] true true [(150, strC)] true
    [(100, hashA), (150, hashC)] (by decide)).2

/-- C9 counterexample: at registry {0 ↦ hashA}, the hash string `strB`
decodes successfully yet `add_checkpoint` does not return success, so the
claim's guarantee of a success result for every registry state fails. -/
theorem C9_idempotence_cex :
    SortedKeys [(0, hashA)] ∧ hex_to_pod strB = some hashB ∧
      (add_checkpoint [(0, hashA)] 0 strB).1 ≠ true := by
  refine ⟨by decide, by decide, by decide⟩

/-- C9 (amended): for every registry and every hash string that decodes,
calling `add_checkpoint` twice yields exactly the same registry state and
the same result as calling it once; the result is success precisely when
the height is absent or already stores the identical hash. -/
theorem C9_idempotence_amended :
    ∀ (pts : Registry) (height : Nat) (s : String) (h : Hash),
      SortedKeys pts → hex_to_pod s = some h →
      add_checkpoint (add_checkpoint pts height s).2 height s =
        add_checkpoint pts height s
      ∧ ((add_checkpoint pts height s).1 = true ↔
          (findHash pts height = none ∨ findHash pts height = some h)) := by
  intro pts height s h hs hx
  have hstep := @add_checkpoint_of_decode_ok pts height s h hx
  rw [hstep]
  cases hf : findHash pts height with
  | none =>
    rw [if_neg (by simp [hf])]
    have hf₁ := findHash_mapInsert_self pts height h
    constructor
    · show add_checkpoint (mapInsert pts height h) height s =
        (true, mapInsert pts height h)
      rw [@add_checkpoint_of_decode_ok (mapInsert pts height h) height s h hx,
        if_pos (by rw [hf₁]; rfl), if_pos hf₁,
        mapInsert_self (sortedKeys_mapInsert height h hs) hf₁]
    · simp
  | some stored =>
    by_cases heq : stored = h
    · subst heq
      rw [if_pos (show (some stored).isSome = true from rfl),
        if_pos (show (some stored : Option Hash) = some stored from rfl),
        mapInsert_self hs hf]
      constructor
      · show add_checkpoint pts height s = (true, pts)
        rw [hstep, if_pos (by rw [hf]; rfl), if_pos hf, mapInsert_self hs hf]
      · simp
    · rw [if_pos (show (some stored).isSome = true from rfl),
        if_neg (fun hc : (some stored : Option Hash) = some h =>
          heq (Option.some.inj hc))]
      constructor
      · show add_checkpoint pts height s = (false, pts)
        rw [hstep, if_pos (by rw [hf]; rfl),
          if_neg (fun hc : findHash pts height = some h =>
            heq (Option.some.inj (hf.symm.trans hc)))]
      · simp [heq]

/-- Witness for C9: inserting the same checkpoint twice into the empty
registry equals inserting it once. -/
theorem C9_idempotence_witness :
    add_checkpoint (add_checkpoint [] 100 strA).2 100 strA =
      add_checkpoint [] 100 strA :=
  (C9_idempotence_amended [] 100 strA hashA (by decide) (by decide)).1

/-- C10: `load_checkpoints_from_json` takes the registry maximum before
reading any record whenever the file exists, with no emptiness guard: on
the empty registry the embedded `get_max_height` reaches its guarded
undefined branch (so the whole merge is undefined there), while on every
non-empty registry the snapshot is defined. -/
theorem C10_empty_registry_snapshot :
    get_max_height ([] : Registry) = none
    ∧ (∀ (parse_ok : Bool) (hashlines : List HashLine),
        load_checkpoints_from_json [] true parse_ok hashlines = none)
    ∧ (∀ pts : Registry, pts ≠ [] → (get_max_height pts).isSome = true) := by
  refine ⟨rfl, ?_, ?_⟩
  · intro po lines
    rfl
  · intro pts h
    exact get_max_height_isSome h

/-- Witness for C10: the snapshot is defined on a non-empty registry. -/
theorem C10_empty_registry_snapshot_witness :
    ([(0, hashA)] : Registry) ≠ [] ∧
      (get_max_height [(0, hashA)]).isSome = true :=
  ⟨by decide, C10_empty_registry_snapshot.2.2 [(0, hashA)] (by decide)⟩
